import Mathlib

/-!
Verification of the D-algorithm ATPG engine of this repository
(source file d_algorithm_atpg.py, class DAlgorithmATPG).

The Python code is shallowly embedded: the five-valued logic enum becomes
an inductive type, the netlist dictionaries become lists of records kept in
source iteration order, and the mutable signal-value dictionary becomes a
total function from net names to values that is threaded through every
step.  Loops bounded by max_iterations in the source become fuel-indexed
structural recursion with the same bounds (100 for forward implication,
200 for the main search loop).
-/

namespace DAlg

/-- Five-value logic of the D-algorithm (class Value in the source):
ZERO, ONE, unknown X, D (good 1 / faulty 0), D_BAR (good 0 / faulty 1). -/
inductive Value : Type
  | ZERO
  | ONE
  | X
  | D
  | D_BAR
deriving DecidableEq, Repr

open Value

/-- DAlgorithmATPG._complement: NOT in five-valued logic. -/
def complement : Value → Value
  | ZERO => ONE
  | ONE => ZERO
  | D => D_BAR
  | D_BAR => D
  | X => X

/-- DAlgorithmATPG._eval_and: AND gate in five-valued logic.
Mirrors the source: controlling-zero check, filter of X values, D_BAR
dominance, then the all-in-ONE-or-D branch. -/
def eval_and (inputs : List Value) : Value :=
  if ZERO ∈ inputs then ZERO
  else
    let nonX := inputs.filter (fun v => decide (v ≠ X))
    if nonX = [] then X
    else if D_BAR ∈ nonX then D_BAR
    else if ∀ v ∈ nonX, v = ONE ∨ v = D then
      if D ∈ nonX then D
      else if nonX.length = inputs.length then ONE
      else X
    else X

/-- DAlgorithmATPG._eval_or: OR gate in five-valued logic, the dual of
eval_and exactly as written in the source. -/
def eval_or (inputs : List Value) : Value :=
  if ONE ∈ inputs then ONE
  else
    let nonX := inputs.filter (fun v => decide (v ≠ X))
    if nonX = [] then X
    else if D ∈ nonX then D
    else if ∀ v ∈ nonX, v = ZERO ∨ v = D_BAR then
      if D_BAR ∈ nonX then D_BAR
      else if nonX.length = inputs.length then ZERO
      else X
    else X

/-- The scanning loop of DAlgorithmATPG._eval_xor (source lines 308-321):
walks the inputs accumulating the parity of ONE values and the presence
flags for D and D_BAR; an X input aborts the scan (the source returns X
from inside the loop). -/
def xorScan : List Value → Bool → Bool → Bool → Option (Bool × Bool × Bool)
  | [], parity, hasD, hasDB => some (parity, hasD, hasDB)
  | ONE :: rest, parity, hasD, hasDB => xorScan rest (!parity) hasD hasDB
  | D :: rest, parity, _, hasDB => xorScan rest parity true hasDB
  | D_BAR :: rest, parity, hasD, _ => xorScan rest parity hasD true
  | X :: _, _, _, _ => none
  | ZERO :: rest, parity, hasD, hasDB => xorScan rest parity hasD hasDB

/-- DAlgorithmATPG._eval_xor: XOR gate in five-valued logic.  The source
first returns X when every input is X (lines 301-306), then scans; the
scan itself returns X on any X input, so any X input yields X. -/
def eval_xor (inputs : List Value) : Value :=
  if X ∈ inputs ∧ inputs.filter (fun v => decide (v ≠ X)) = [] then X
  else
    match xorScan inputs false false false with
    | none => X
    | some (parity, hasD, hasDB) =>
      if hasD ∧ ¬hasDB then (if parity = false then D else D_BAR)
      else if hasDB ∧ ¬hasD then (if parity = false then D_BAR else D)
      else if hasD ∧ hasDB then X
      else if parity = true then ONE else ZERO

/-- DAlgorithmATPG._eval_gate: dispatch on the gate-type string; NOT and
BUF demand exactly one input, any unrecognized gate type yields X. -/
def eval_gate (gateType : String) (inputs : List Value) : Value :=
  if gateType = "and" then eval_and inputs
  else if gateType = "or" then eval_or inputs
  else if gateType = "xor" then eval_xor inputs
  else if gateType = "nand" then complement (eval_and inputs)
  else if gateType = "nor" then complement (eval_or inputs)
  else if gateType = "xnor" then complement (eval_xor inputs)
  else if gateType = "not" then
    match inputs with
    | [i] => complement i
    | _ => X
  else if gateType = "buf" then
    match inputs with
    | [i] => i
    | _ => X
  else X

/-- One cell of the netlist: instance name, gate type string, single
output net and ordered input nets (cells dictionary entries). -/
structure Gate : Type where
  name : String
  type : String
  output : String
  inputs : List String
deriving DecidableEq, Repr

/-- The flattened module: ports as (net, direction) pairs, cells, the net
list and the fanout stem-to-branches relation, all in source order. -/
structure Circuit : Type where
  ports : List (String × String)
  cells : List Gate
  nets : List String
  fanouts : List (String × List String)
deriving DecidableEq, Repr

/-- The self.values dictionary: a total assignment of a five-valued logic
value to every net name. -/
def Values : Type := String → Value

/-- A single dictionary write self.values[n] = x. -/
def setVal (v : Values) (n : String) (x : Value) : Values :=
  fun m => if m = n then x else v m

/-- DAlgorithmATPG.gate_properties non_controlling entry: ONE for AND and
NAND, ZERO for OR and NOR, absent for every other gate type. -/
def nonControlling : String → Option Value
  | "and" => some ONE
  | "nand" => some ONE
  | "or" => some ZERO
  | "nor" => some ZERO
  | _ => none

/-- DAlgorithmATPG._get_gates_driven_by_net: all cells whose input list
contains the given net, in cells-dictionary order. -/
def gatesDrivenBy (c : Circuit) (net : String) : List Gate :=
  c.cells.filter (fun g => decide (net ∈ g.inputs))

/-- One pass of the while loop of DAlgorithmATPG._forward_implication
(source lines 443-465), folded over the cells in dictionary order.  For
each gate the output is recomputed from the current (already partially
updated) values; a known recomputed value that contradicts a known stored
output aborts with none, carrying the values mutated so far; an unknown
stored output is tightened to a known recomputed value and the changed
flag is set. -/
def forwardPass : List Gate → Values → Bool → (Option Bool) × Values
  | [], v, changed => (some changed, v)
  | g :: gs, v, changed =>
    let newOut := eval_gate g.type (g.inputs.map v)
    let cur := v g.output
    if cur ≠ X ∧ newOut ≠ X ∧ cur ≠ newOut then (none, v)
    else if cur = X ∧ newOut ≠ X then
      forwardPass gs (setVal v g.output newOut) true
    else forwardPass gs v changed

/-- DAlgorithmATPG._forward_implication: repeat forwardPass until a full
pass reports no change, bounded by the fuel (max_iterations = 100 at the
call site); a conflict returns the failure flag false together with the
partially mutated values, exactly as the Python method leaves
self.values mutated when it returns False. -/
def forward_implication (c : Circuit) : Nat → Values → Bool × Values
  | 0, v => (true, v)
  | fuel + 1, v =>
    match forwardPass c.cells v false with
    | (none, v1) => (false, v1)
    | (some changed, v1) =>
      if changed then forward_implication c fuel v1 else (true, v1)

/-- Helper shared by backward implication and D-propagation: set every
still-unknown net of the list to the value, walking the list in order
(the for loops that assign all X inputs in the source). -/
def setXInputs : List String → Value → Values → Values
  | [], _, v => v
  | n :: ns, val, v =>
    setXInputs ns val (if v n = X then setVal v n val else v)

/-- Helper shared by backward implication and D-propagation: set only the
first still-unknown net of the list to the value (the for loops with a
break in the source). -/
def setFirstXInput : List String → Value → Values → Values
  | [], _, v => v
  | n :: ns, val, v =>
    if v n = X then setVal v n val else setFirstXInput ns val v

/-- DAlgorithmATPG._backward_implication (source lines 473-562): justify a
required value on a net.  Returns the success flag and the updated
values.  The final catch-all of the source returns True without touching
anything (including XOR/XNOR outputs and an unknown target value). -/
def backward_implication (c : Circuit) (net : String) (required : Value)
    (v : Values) : Bool × Values :=
  if v net = required then (true, v)
  else if c.ports.lookup net = some "Input" then
    if v net = X then (true, setVal v net required)
    else if v net = required then (true, v)
    else (false, v)
  else
    match c.cells.find? (fun g => decide (g.output = net)) with
    | none =>
      if v net = X then (true, setVal v net required)
      else (decide (v net = required), v)
    | some g =>
      if g.type = "and" ∨ g.type = "nand" then
        let target := if g.type = "and" then required else complement required
        if target = ONE then (true, setXInputs g.inputs ONE v)
        else if target = ZERO then (true, setFirstXInput g.inputs ZERO v)
        else (true, v)
      else if g.type = "or" ∨ g.type = "nor" then
        let target := if g.type = "or" then required else complement required
        if target = ZERO then (true, setXInputs g.inputs ZERO v)
        else if target = ONE then (true, setFirstXInput g.inputs ONE v)
        else (true, v)
      else if g.type = "not" ∨ g.type = "buf" then
        let needed := if g.type = "not" then complement required else required
        match g.inputs with
        | [] => (true, v)
        | i :: _ => if v i = X then (true, setVal v i needed) else (true, v)
      else (true, v)

/-- The D-frontier of DAlgorithmATPG._update_frontiers: names of cells
whose output is X while some input carries D or D_BAR, in cells order. -/
def d_frontier (c : Circuit) (v : Values) : List String :=
  (c.cells.filter (fun g =>
    decide (v g.output = X) &&
      (g.inputs.map v).any (fun x => decide (x = D) || decide (x = D_BAR)))).map
    (fun g => g.name)

/-- The J-frontier of DAlgorithmATPG._update_frontiers: names of cells
whose output is known (ZERO or ONE) while some input is X.  Recorded for
fidelity; the reference propagation strategy never consumes it. -/
def j_frontier (c : Circuit) (v : Values) : List String :=
  (c.cells.filter (fun g =>
    (decide (v g.output = ZERO) || decide (v g.output = ONE)) &&
      (g.inputs.map v).any (fun x => decide (x = X)))).map (fun g => g.name)

/-- DAlgorithmATPG._propagate_d_through_gate: drive every still-unknown
input of the gate to its non-controlling value; for XOR/XNOR set only the
first unknown input to ZERO; other types (NOT, BUF, unrecognized) do
nothing.  The source method always returns True, so only the values are
returned here. -/
def propagate_d_through_gate (c : Circuit) (gateName : String) (v : Values) :
    Values :=
  match c.cells.find? (fun g => decide (g.name = gateName)) with
  | none => v
  | some g =>
    match nonControlling g.type with
    | some nc => setXInputs g.inputs nc v
    | none =>
      if g.type = "xor" ∨ g.type = "xnor" then setFirstXInput g.inputs ZERO v
      else v

/-- DAlgorithmATPG._check_d_at_output: some Output-direction port holds D
or D_BAR. -/
def check_d_at_output (c : Circuit) (v : Values) : Bool :=
  c.ports.any (fun p =>
    decide (p.2 = "Output") && (decide (v p.1 = D) || decide (v p.1 = D_BAR)))

/-- Is the net an Output-direction port (the test done inside the BFS of
_has_x_path_to_output)? -/
def isOutputPort (c : Circuit) (net : String) : Bool :=
  decide (c.ports.lookup net = some "Output")

/-- The BFS loop of DAlgorithmATPG._has_x_path_to_output (source lines
661-685): pop the head of the queue, skip it when already visited, stop
with true at any primary output, and when the net is still X enqueue the
outputs of every gate it drives (filtered against the visited set, which
already contains the current net).  Fuel-indexed; the loop itself
terminates because every iteration either shrinks the queue or grows the
visited set, and the fuel chosen at the call site exceeds the total
number of possible enqueues. -/
def xPathBFS (c : Circuit) (v : Values) :
    Nat → List String → List String → Bool
  | 0, _, _ => false
  | _ + 1, _, [] => false
  | fuel + 1, visited, n :: rest =>
    if n ∈ visited then xPathBFS c v fuel visited rest
    else
      let visited1 := n :: visited
      if isOutputPort c n then true
      else if v n = X then
        let nexts := ((gatesDrivenBy c n).map (fun g => g.output)).filter
          (fun m => decide (m ∉ visited1))
        xPathBFS c v fuel visited1 (rest ++ nexts)
      else xPathBFS c v fuel visited1 rest

/-- DAlgorithmATPG._has_x_path_to_output: start the BFS from the output
net of the named gate.  The source indexes self.cells[gate_name] directly
(a KeyError if absent); the method is only invoked with names taken from
the D-frontier, which are cell names, so the none branch is dead. -/
def has_x_path_to_output (c : Circuit) (v : Values) (gateName : String) :
    Bool :=
  match c.cells.find? (fun g => decide (g.name = gateName)) with
  | none => false
  | some g =>
    xPathBFS c v ((c.cells.length + 1) * (c.cells.length + 1) + 1) [] [g.output]

/-- The D-frontier gate selection of DAlgorithmATPG.generate_test (source
lines 837-851): take the first frontier gate; if it has no X-path to an
output, take the second frontier gate when one exists (without checking
its path), otherwise fail. -/
def selectGate (c : Circuit) (v : Values) (g0 : String) (rest : List String) :
    Option String :=
  if has_x_path_to_output c v g0 then some g0
  else
    match rest with
    | [] => none
    | g1 :: _ => some g1

/-- The justification step of the success branch of generate_test (source
lines 789-795): every Input-direction port still X is set to ZERO,
walking the ports in dictionary order. -/
def justifyInputs (ports : List (String × String)) (v : Values) : Values :=
  ports.foldl
    (fun w p => if p.2 = "Input" ∧ w p.1 = X then setVal w p.1 ZERO else w) v

/-- The bit extracted for one primary input in the success branch of
generate_test: D and ONE give "1", D_BAR and ZERO give "0", and the
defensive else branch gives "0". -/
def toBit : Value → String
  | ZERO => "0"
  | ONE => "1"
  | D => "1"
  | D_BAR => "0"
  | X => "0"

/-- The test-vector extraction of the success branch of generate_test
(source lines 797-811): one entry per Input-direction port, in ports
order. -/
def extractVector (ports : List (String × String)) (v : Values) :
    List (String × String) :=
  (ports.filter (fun p => decide (p.2 = "Input"))).map
    (fun p => (p.1, toBit (v p.1)))

/-- Step 2 of generate_test (source lines 735-755): write the sensitizing
value on the fault net, then mirror it onto every fanout branch of the
fault net. -/
def sensitize (c : Circuit) (faultNet : String) (sv : Value) (v : Values) :
    Values :=
  let v1 := setVal v faultNet sv
  match c.fanouts.lookup faultNet with
  | none => v1
  | some branches => branches.foldl (fun w b => setVal w b sv) v1

/-- The main search loop of generate_test (source lines 763-867), one
fuel unit per while-loop iteration (max_iterations = 200 at the call
site).  Each iteration: forward implication (failure returns none with
the mutated values), success check at the primary outputs followed by
input justification and vector extraction, untestability check on an
empty D-frontier, gate selection and D-propagation.  The source also
tests the always-true return value of _propagate_d_through_gate; that
dead branch is omitted. -/
def atpgLoop (c : Circuit) : Nat → Values → Option (List (String × String)) × Values
  | 0, v => (none, v)
  | fuel + 1, v =>
    match forward_implication c 100 v with
    | (false, v1) => (none, v1)
    | (true, v1) =>
      if check_d_at_output c v1 then
        let v2 := justifyInputs c.ports v1
        (some (extractVector c.ports v2), v2)
      else
        match d_frontier c v1 with
        | [] => (none, v1)
        | g0 :: rest =>
          match selectGate c v1 g0 rest with
          | none => (none, v1)
          | some g => atpgLoop c fuel (propagate_d_through_gate c g v1)

/-- DAlgorithmATPG.generate_test together with the stored signal state:
the incoming self.values is v0; fault-net and fault-type validation
happen before _initialize_circuit, so a validation failure returns none
with v0 untouched; otherwise the state is reset to all-X, the fault is
sensitized (SA0 gives D, SA1 gives D_BAR) and the search loop runs with
its iteration bound of 200. -/
def generate_test_full (c : Circuit) (v0 : Values)
    (faultNet faultType : String) :
    Option (List (String × String)) × Values :=
  if faultNet ∉ c.nets then (none, v0)
  else if faultType ≠ "SA0" ∧ faultType ≠ "SA1" then (none, v0)
  else
    let sv := if faultType = "SA0" then D else D_BAR
    let v1 := sensitize c faultNet sv (fun _ => X)
    atpgLoop c 200 v1

/-- DAlgorithmATPG.generate_test, result component only, started from a
freshly constructed engine whose stored values are all X. -/
def generate_test (c : Circuit) (faultNet faultType : String) :
    Option (List (String × String)) :=
  (generate_test_full c (fun _ => X) faultNet faultType).1

/-- The concrete scenario of the specification: a single 2-input AND gate
g1 with primary inputs a and b and primary output f. -/
def andCircuit : Circuit where
  ports := [("a", "Input"), ("b", "Input"), ("f", "Output")]
  cells := [⟨"g1", "and", "f", ["a", "b"]⟩]
  nets := ["a", "b", "f"]
  fanouts := []

/-- A circuit exercising the D-frontier selection: two XOR cells gA and gB
both fed by the internal net s and the primary input u, whose outputs wA
and wB drive nothing, plus a buffer gO from the primary input p to the
primary output o1.  After sensitizing s, both gA and gB sit on the
D-frontier and neither has an X-path to the output o1. -/
def twoXorCircuit : Circuit where
  ports := [("u", "Input"), ("p", "Input"), ("o1", "Output")]
  cells :=
    [⟨"gA", "xor", "wA", ["s", "u"]⟩,
     ⟨"gB", "xor", "wB", ["s", "u"]⟩,
     ⟨"gO", "buf", "o1", ["p"]⟩]
  nets := ["u", "p", "s", "wA", "wB", "o1"]
  fanouts := []

/-- The engine state of twoXorCircuit after sensitizing a stuck-at-0
fault on s and running forward implication to its fixed point: this is
the state in which the first propagation step selects a D-frontier
gate. -/
def twoXorState : Values :=
  (forward_implication twoXorCircuit 100
    (sensitize twoXorCircuit "s" D (fun _ => X))).2

/-- State evolution that writes only to unknown nets: wherever the new
state differs from the old one, the old value was X. -/
def onlyX (v w : Values) : Prop :=
  ∀ n, w n ≠ v n → v n = Value.X

/-- State evolution that tightens unknowns: every net either keeps its
value or moves from X to a known (non-X) value. -/
def tightens (v w : Values) : Prop :=
  ∀ n, w n = v n ∨ (v n = Value.X ∧ w n ≠ Value.X)

/-- Number of nets of the list still unknown under the assignment. -/
def countX (nets : List String) (v : Values) : Nat :=
  nets.countP (fun n => decide (v n = Value.X))

/-- Parity of the ONE-valued inputs, as computed by the XOR evaluator:
true exactly when the number of ONE inputs is odd. -/
def oddOnes (l : List Value) : Bool :=
  decide ((l.countP fun x => decide (x = Value.ONE)) % 2 = 1)

/-- An all-ONE assignment on the nets a and b, X elsewhere: a state of
andCircuit in which forward implication derives f, used to witness the
forward-implication and single-assignment properties. -/
def andOnes : Values :=
  fun n => if n = "a" ∨ n = "b" then Value.ONE else Value.X

/-- A state of andCircuit holding a ZERO output f against all-ONE inputs:
forward implication must detect the conflict on f. -/
def andConflict : Values :=
  fun n => if n = "f" then Value.ZERO else Value.ONE

theorem setVal_self (v : Values) (n : String) (x : Value) :
    setVal v n x n = x := by
  simp [setVal]

theorem setVal_other (v : Values) (n m : String) (x : Value) (h : m ≠ n) :
    setVal v n x m = v m := by
  simp [setVal, h]

theorem tightens_refl (v : Values) : tightens v v := fun _ => Or.inl rfl

theorem tightens_trans {u v w : Values} (h1 : tightens u v)
    (h2 : tightens v w) : tightens u w := by
  intro n
  rcases h2 n with h | ⟨hvX, hwX⟩
  · rw [h]; exact h1 n
  · rcases h1 n with h | ⟨huX, hvX2⟩
    · exact Or.inr ⟨h ▸ hvX, hwX⟩
    · exact absurd hvX hvX2
theorem tightens_onlyX {v w : Values} (h : tightens v w) : onlyX v w := by
  intro n hne
  rcases h n with h | ⟨hX, _⟩
  · exact absurd h hne
  · exact hX

theorem onlyX_refl (v : Values) : onlyX v v := fun _ h => absurd rfl h

theorem onlyX_trans {u v w : Values} (h1 : onlyX u v) (h2 : onlyX v w) :
    onlyX u w := by
  intro n hne
  by_cases hv : v n = u n
  · have hw : w n ≠ v n := by rw [hv]; exact hne
    rw [← hv]
    exact h2 n hw
  · exact h1 n hv

theorem onlyX_keep {v w : Values} (h : onlyX v w) {n : String}
    (hn : v n ≠ Value.X) : w n = v n := by
  by_contra hne
  exact hn (h n hne)

theorem setVal_tightens {v : Values} {n : String} {x : Value}
    (hn : v n = Value.X) (hx : x ≠ Value.X) : tightens v (setVal v n x) := by
  intro m
  by_cases hm : m = n
  · subst hm
    exact Or.inr ⟨hn, by rw [setVal_self]; exact hx⟩
  · exact Or.inl (setVal_other v n m x hm)

theorem setXInputs_onlyX (ns : List String) (val : Value) (v : Values) :
    onlyX v (setXInputs ns val v) := by
  induction ns generalizing v with
  | nil =>
    simp only [setXInputs]
    exact onlyX_refl v
  | cons n ns ih =>
    simp only [setXInputs]
    have step : onlyX v (if v n = Value.X then setVal v n val else v) := by
      intro m hm
      split at hm
      · rename_i h
        by_cases hmn : m = n
        · exact hmn ▸ h
        · exact absurd (setVal_other v n m val hmn) hm
      · exact absurd rfl hm
    exact onlyX_trans step (ih _)

theorem setFirstXInput_onlyX (ns : List String) (val : Value) (v : Values) :
    onlyX v (setFirstXInput ns val v) := by
  induction ns generalizing v with
  | nil =>
    simp only [setFirstXInput]
    exact onlyX_refl v
  | cons n ns ih =>
    simp only [setFirstXInput]
    split
    · rename_i h
      intro m hm
      by_cases hmn : m = n
      · exact hmn ▸ h
      · exact absurd (setVal_other v n m val hmn) hm
    · exact ih v

theorem forwardPass_tightens (gs : List Gate) (v : Values) (ch : Bool) :
    tightens v (forwardPass gs v ch).2 := by
  induction gs generalizing v ch with
  | nil => exact tightens_refl v
  | cons g gs ih =>
    rw [forwardPass]
    split
    · exact tightens_refl v
    · split
      · rename_i hcond
        exact tightens_trans (setVal_tightens hcond.1 hcond.2) (ih _ _)
      · exact ih v ch

theorem forwardPass_onlyX (gs : List Gate) (v : Values) (ch : Bool) :
    onlyX v (forwardPass gs v ch).2 :=
  tightens_onlyX (forwardPass_tightens gs v ch)

theorem forward_implication_tightens (c : Circuit) (fuel : Nat) (v : Values) :
    tightens v (forward_implication c fuel v).2 := by
  induction fuel generalizing v with
  | zero => exact tightens_refl v
  | succ fuel ih =>
    rw [forward_implication]
    have hp := forwardPass_tightens c.cells v false
    split
    · rename_i v1 heq
      rw [heq] at hp
      exact hp
    · rename_i changed v1 heq
      rw [heq] at hp
      split
      · exact tightens_trans hp (ih v1)
      · exact hp

theorem forward_implication_onlyX (c : Circuit) (fuel : Nat) (v : Values) :
    onlyX v (forward_implication c fuel v).2 :=
  tightens_onlyX (forward_implication_tightens c fuel v)

theorem forwardPass_flag_true (gs : List Gate) (v : Values) (b : Bool)
    (w : Values) (h : forwardPass gs v true = (some b, w)) : b = true := by
  induction gs generalizing v with
  | nil =>
    simp only [forwardPass, Prod.mk.injEq, Option.some.injEq] at h
    exact h.1.symm
  | cons g gs ih =>
    simp only [forwardPass] at h
    split at h
    · cases h
    · split at h
      · exact ih _ h
      · exact ih _ h

theorem forwardPass_no_change (gs : List Gate) (v w : Values)
    (h : forwardPass gs v false = (some false, w)) : w = v := by
  induction gs generalizing v with
  | nil =>
    simp only [forwardPass] at h
    cases h
    rfl
  | cons g gs ih =>
    simp only [forwardPass] at h
    split at h
    · cases h
    · split at h
      · exact absurd (forwardPass_flag_true _ _ _ _ h) (by simp)
      · exact ih _ h

theorem countX_le_of_tightens (nets : List String) {v w : Values}
    (h : tightens v w) : countX nets w ≤ countX nets v := by
  refine List.countP_mono_left ?_
  intro n _ hw
  rcases h n with heq | ⟨hvX, hwX⟩
  · rw [decide_eq_true_iff] at hw ⊢
    rw [← heq]
    exact hw
  · rw [decide_eq_true_iff] at hw
    exact absurd hw hwX

theorem countX_lt (nets : List String) {v w : Values} (h : tightens v w)
    {n : String} (hn : n ∈ nets) (hvX : v n = Value.X)
    (hwX : w n ≠ Value.X) : countX nets w < countX nets v := by
  induction nets with
  | nil => cases hn
  | cons m nets ih =>
    simp only [countX, List.countP_cons]
    rcases List.mem_cons.mp hn with rfl | hn2
    · have h1 := countX_le_of_tightens nets h
      simp only [countX] at h1
      simp [hvX, decide_eq_false hwX]
      omega
    · have hle : (if decide (w m = Value.X) = true then 1 else 0) ≤
          (if decide (v m = Value.X) = true then 1 else 0) := by
        by_cases hwm : w m = Value.X
        · rcases h m with heq | ⟨_, hwm2⟩
          · rw [heq]
          · exact absurd hwm hwm2
        · simp [decide_eq_false hwm]
      have h2 := ih hn2
      simp only [countX] at h2
      omega

theorem forwardPass_countX_lt (nets : List String) (gs : List Gate)
    (v w : Values) (hwf : ∀ g ∈ gs, g.output ∈ nets)
    (h : forwardPass gs v false = (some true, w)) :
    countX nets w < countX nets v := by
  induction gs generalizing v with
  | nil => simp only [forwardPass] at h; cases h
  | cons g gs ih =>
    simp only [forwardPass] at h
    split at h
    · cases h
    · split at h
      · rename_i hcond
        have hstep := setVal_tightens (v := v) hcond.1 hcond.2
        have hrest := forwardPass_tightens gs
          (setVal v g.output (eval_gate g.type (g.inputs.map v))) true
        rw [h] at hrest
        calc countX nets w ≤
            countX nets (setVal v g.output (eval_gate g.type (g.inputs.map v))) :=
              countX_le_of_tightens nets hrest
          _ < countX nets v := by
              refine countX_lt nets hstep (hwf g (List.mem_cons_self g gs))
                hcond.1 ?_
              rw [setVal_self]
              exact hcond.2
      · exact ih _ (fun g hg => hwf g (List.mem_cons_of_mem _ hg)) h

theorem forward_implication_fixpoint (c : Circuit) (fuel : Nat) (v : Values)
    (hwf : ∀ g ∈ c.cells, g.output ∈ c.nets)
    (hok : (forward_implication c fuel v).1 = true)
    (hfuel : countX c.nets v < fuel) :
    forwardPass c.cells (forward_implication c fuel v).2 false =
      (some false, (forward_implication c fuel v).2) := by
  induction fuel generalizing v with
  | zero => omega
  | succ fuel ih =>
    rw [forward_implication] at hok ⊢
    rcases hp : forwardPass c.cells v false with ⟨flag, v1⟩
    rw [hp] at hok
    cases flag with
    | none => exact Bool.noConfusion (show false = true from hok)
    | some changed =>
      cases changed with
      | false =>
        have hv1 : v1 = v := forwardPass_no_change c.cells v v1 hp
        show forwardPass c.cells v1 false = (some false, v1)
        rw [hv1] at hp ⊢
        exact hp
      | true =>
        have hok2 : (forward_implication c fuel v1).1 = true := hok
        have hlt : countX c.nets v1 < countX c.nets v :=
          forwardPass_countX_lt c.nets c.cells v v1 hwf hp
        show forwardPass c.cells (forward_implication c fuel v1).2 false =
          (some false, (forward_implication c fuel v1).2)
        exact ih v1 hok2 (by omega)

theorem forwardPass_change_eval (gs : List Gate) (v : Values) (ch : Bool)
    (n : String) (hne : (forwardPass gs v ch).2 n ≠ v n) :
    ∃ g ∈ gs, g.output = n ∧ ∃ w : Values, tightens v w ∧ w n = Value.X ∧
      (forwardPass gs v ch).2 n = eval_gate g.type (g.inputs.map w) := by
  induction gs generalizing v ch with
  | nil =>
    simp only [forwardPass] at hne
    exact absurd rfl hne
  | cons g gs ih =>
    by_cases hconf : v g.output ≠ Value.X ∧
        eval_gate g.type (g.inputs.map v) ≠ Value.X ∧
        v g.output ≠ eval_gate g.type (g.inputs.map v)
    · have hfp : forwardPass (g :: gs) v ch = (none, v) := by
        simp only [forwardPass]
        rw [if_pos hconf]
      rw [hfp] at hne
      exact absurd rfl hne
    · by_cases hupd : v g.output = Value.X ∧
          eval_gate g.type (g.inputs.map v) ≠ Value.X
      · have hfp : forwardPass (g :: gs) v ch =
            forwardPass gs (setVal v g.output (eval_gate g.type (g.inputs.map v)))
              true := by
          simp only [forwardPass]
          rw [if_neg hconf, if_pos hupd]
        rw [hfp] at hne ⊢
        by_cases hn : n = g.output
        · have hv1n : setVal v g.output (eval_gate g.type (g.inputs.map v)) n =
              eval_gate g.type (g.inputs.map v) := by
            rw [hn, setVal_self]
          have hres := onlyX_keep
            (forwardPass_onlyX gs
              (setVal v g.output (eval_gate g.type (g.inputs.map v))) true)
            (n := n) (by rw [hv1n]; exact hupd.2)
          refine ⟨g, List.mem_cons_self g gs, hn.symm, v, tightens_refl v,
            hn ▸ hupd.1, ?_⟩
          rw [hres, hv1n]
        · have hv1n : setVal v g.output (eval_gate g.type (g.inputs.map v)) n =
              v n := setVal_other _ _ _ _ hn
          rw [← hv1n] at hne
          obtain ⟨g2, hg2, hout, w, htight, hwn, heval⟩ := ih _ true hne
          exact ⟨g2, List.mem_cons_of_mem g hg2, hout, w,
            tightens_trans (setVal_tightens hupd.1 hupd.2) htight, hwn, heval⟩
      · have hfp : forwardPass (g :: gs) v ch = forwardPass gs v ch := by
          simp only [forwardPass]
          rw [if_neg hconf, if_neg hupd]
        rw [hfp] at hne ⊢
        obtain ⟨g2, hg2, hout, w, htight, hwn, heval⟩ := ih v ch hne
        exact ⟨g2, List.mem_cons_of_mem g hg2, hout, w, htight, hwn, heval⟩

theorem forwardPass_conflict (g : Gate) (gs : List Gate) (v : Values)
    (ch : Bool) (h1 : v g.output ≠ Value.X)
    (h2 : eval_gate g.type (g.inputs.map v) ≠ Value.X)
    (h3 : v g.output ≠ eval_gate g.type (g.inputs.map v)) :
    forwardPass (g :: gs) v ch = (none, v) := by
  simp only [forwardPass]
  rw [if_pos ⟨h1, h2, h3⟩]

theorem atpgLoop_of_conflict (c : Circuit) (fuel : Nat) (v : Values)
    (h : (forward_implication c 100 v).1 = false) :
    atpgLoop c (fuel + 1) v = (none, (forward_implication c 100 v).2) := by
  rw [atpgLoop]
  rcases hp : forward_implication c 100 v with ⟨flag, v1⟩
  rw [hp] at h
  cases flag with
  | false => rfl
  | true => exact Bool.noConfusion h

theorem propagate_onlyX (c : Circuit) (gateName : String) (v : Values) :
    onlyX v (propagate_d_through_gate c gateName v) := by
  rw [propagate_d_through_gate]
  split
  · exact onlyX_refl v
  · split
    · exact setXInputs_onlyX _ _ v
    · split
      · exact setFirstXInput_onlyX _ _ v
      · exact onlyX_refl v

theorem setVal_onlyX_of_X {v : Values} {n : String} (x : Value)
    (hn : v n = Value.X) : onlyX v (setVal v n x) := by
  intro m hm
  by_cases hmn : m = n
  · exact hmn ▸ hn
  · exact absurd (setVal_other v n m x hmn) hm

theorem backward_implication_onlyX (c : Circuit) (net : String)
    (required : Value) (v : Values) :
    onlyX v (backward_implication c net required v).2 := by
  rw [backward_implication]
  dsimp only
  repeat' split
  all_goals
    first
      | exact onlyX_refl v
      | exact setXInputs_onlyX _ _ v
      | exact setFirstXInput_onlyX _ _ v
      | (rename_i h
         exact setVal_onlyX_of_X _ h)
      | (rename_i h _
         exact setVal_onlyX_of_X _ h)

theorem justifyInputs_onlyX (ports : List (String × String)) (v : Values) :
    onlyX v (justifyInputs ports v) := by
  induction ports generalizing v with
  | nil => exact onlyX_refl v
  | cons p ps ih =>
    have hstep : justifyInputs (p :: ps) v =
        justifyInputs ps
          (if p.2 = "Input" ∧ v p.1 = Value.X then setVal v p.1 Value.ZERO
            else v) := by
      rw [justifyInputs, justifyInputs, List.foldl_cons]
    rw [hstep]
    refine onlyX_trans ?_ (ih _)
    split
    · rename_i h
      exact setVal_onlyX_of_X Value.ZERO h.2
    · exact onlyX_refl v

theorem justifyInputs_zero (ports : List (String × String)) (v : Values)
    (n : String) (hn : (n, "Input") ∈ ports)
    (hv : v n = Value.X ∨ v n = Value.ZERO) :
    justifyInputs ports v n = Value.ZERO := by
  induction ports generalizing v with
  | nil => cases hn
  | cons p ps ih =>
    have hstep : justifyInputs (p :: ps) v =
        justifyInputs ps
          (if p.2 = "Input" ∧ v p.1 = Value.X then setVal v p.1 Value.ZERO
            else v) := by
      rw [justifyInputs, justifyInputs, List.foldl_cons]
    rw [hstep]
    rcases List.mem_cons.mp hn with heq | hmem
    · rcases hv with hX | hZ
      · have : (if p.2 = "Input" ∧ v p.1 = Value.X then setVal v p.1 Value.ZERO
            else v) n = Value.ZERO := by
          rw [if_pos (by rw [← heq]; exact ⟨rfl, hX⟩)]
          rw [← heq] at *
          exact setVal_self v n Value.ZERO
        rw [onlyX_keep (justifyInputs_onlyX ps _) (by rw [this]; simp), this]
      · have : (if p.2 = "Input" ∧ v p.1 = Value.X then setVal v p.1 Value.ZERO
            else v) n = Value.ZERO := by
          split
          · rename_i h
            by_cases hnp : n = p.1
            · rw [hnp]
              rw [setVal_self]
            · rw [setVal_other _ _ _ _ hnp]
              exact hZ
          · exact hZ
        rw [onlyX_keep (justifyInputs_onlyX ps _) (by rw [this]; simp), this]
    · refine ih _ hmem ?_
      split
      · rename_i h
        by_cases hnp : n = p.1
        · rw [hnp, setVal_self]
          exact Or.inr rfl
        · rw [setVal_other _ _ _ _ hnp]
          exact hv
      · exact hv

theorem extractVector_fst (ports : List (String × String)) (v : Values) :
    (extractVector ports v).map Prod.fst =
      (ports.filter fun p => decide (p.2 = "Input")).map Prod.fst := by
  rw [extractVector, List.map_map]
  rfl

theorem extractVector_mem (ports : List (String × String)) (v : Values)
    (n s : String) (h : (n, s) ∈ extractVector ports v) : s = toBit (v n) := by
  rw [extractVector] at h
  obtain ⟨p, _, hp⟩ := List.mem_map.mp h
  have h1 : p.1 = n := congrArg Prod.fst hp
  have h2 : toBit (v p.1) = s := congrArg Prod.snd hp
  rw [← h2, h1]

theorem toBit_binary (x : Value) : toBit x = "0" ∨ toBit x = "1" := by
  cases x <;> simp [toBit]

theorem atpgLoop_onlyX (c : Circuit) (fuel : Nat) (v : Values) :
    onlyX v (atpgLoop c fuel v).2 := by
  induction fuel generalizing v with
  | zero => exact onlyX_refl v
  | succ fuel ih =>
    rw [atpgLoop]
    rcases hp : forward_implication c 100 v with ⟨flag, v1⟩
    have hfi : onlyX v v1 := by
      have := forward_implication_onlyX c 100 v
      rw [hp] at this
      exact this
    cases flag with
    | false => exact hfi
    | true =>
      dsimp only
      split
      · exact onlyX_trans hfi (justifyInputs_onlyX c.ports v1)
      · split
        · exact hfi
        · split
          · exact hfi
          · exact onlyX_trans hfi
              (onlyX_trans (propagate_onlyX c _ v1) (ih _))

theorem atpgLoop_success (c : Circuit) (fuel : Nat) (v : Values)
    (tv : List (String × String)) (w : Values)
    (h : atpgLoop c fuel v = (some tv, w)) :
    ∃ vpre : Values, w = justifyInputs c.ports vpre ∧
      tv = extractVector c.ports w := by
  induction fuel generalizing v with
  | zero => cases h
  | succ fuel ih =>
    rw [atpgLoop] at h
    rcases hp : forward_implication c 100 v with ⟨flag, v1⟩
    rw [hp] at h
    cases flag with
    | false => cases h
    | true =>
      dsimp only at h
      split at h
      · rcases h
        exact ⟨v1, rfl, rfl⟩
      · split at h
        · cases h
        · split at h
          · cases h
          · exact ih _ h

theorem generate_test_full_fst_indep (c : Circuit) (faultNet faultType : String)
    (v w : Values) :
    (generate_test_full c v faultNet faultType).1 =
      (generate_test_full c w faultNet faultType).1 := by
  rw [generate_test_full, generate_test_full]
  by_cases h1 : faultNet ∉ c.nets
  · rw [if_pos h1, if_pos h1]
  · rw [if_neg h1, if_neg h1]
    by_cases h2 : faultType ≠ "SA0" ∧ faultType ≠ "SA1"
    · rw [if_pos h2, if_pos h2]
    · rw [if_neg h2, if_neg h2]

theorem mem_nonX {inputs : List Value} {x : Value} (hx : x ∈ inputs)
    (hxX : x ≠ Value.X) : x ∈ inputs.filter (fun v => decide (v ≠ Value.X)) :=
  List.mem_filter.mpr ⟨hx, decide_eq_true hxX⟩

theorem eval_and_char (inputs : List Value) (h0 : Value.ZERO ∉ inputs)
    (hdb : Value.D_BAR ∉ inputs) :
    eval_and inputs =
      (if Value.D ∈ inputs then Value.D
        else if Value.X ∉ inputs ∧ inputs ≠ [] then Value.ONE else Value.X) := by
  rw [eval_and, if_neg h0]
  dsimp only
  have hdbf : Value.D_BAR ∉ inputs.filter (fun v => decide (v ≠ Value.X)) :=
    fun hmem => hdb (List.mem_filter.mp hmem).1
  have hall : ∀ u ∈ inputs.filter (fun v => decide (v ≠ Value.X)),
      u = Value.ONE ∨ u = Value.D := by
    intro u hu
    obtain ⟨hu1, hu2⟩ := List.mem_filter.mp hu
    cases u with
    | ZERO => exact absurd hu1 h0
    | ONE => exact Or.inl rfl
    | X => simp at hu2
    | D => exact Or.inr rfl
    | D_BAR => exact absurd hu1 hdb
  by_cases hnil : inputs.filter (fun v => decide (v ≠ Value.X)) = []
  · rw [if_pos hnil]
    have hallX : ∀ a ∈ inputs, a = Value.X := by
      intro a ha
      have := List.filter_eq_nil_iff.mp hnil a ha
      simpa using this
    have hD : Value.D ∉ inputs := fun hD => Value.noConfusion (hallX _ hD)
    rw [if_neg hD]
    rcases heq : inputs with _ | ⟨a, t⟩
    · rw [if_neg (by simp)]
    · rw [if_neg (by
        intro hcond
        exact hcond.1 ((hallX a (heq ▸ List.mem_cons_self a t)) ▸
          (heq ▸ List.mem_cons_self a t)))]
  · rw [if_neg hnil, if_neg hdbf, if_pos hall]
    have hne : inputs ≠ [] := by
      intro h
      rw [h] at hnil
      simp at hnil
    by_cases hD : Value.D ∈ inputs
    · rw [if_pos (mem_nonX hD (by simp)), if_pos hD]
    · have hDf : Value.D ∉ inputs.filter (fun v => decide (v ≠ Value.X)) :=
        fun hmem => hD (List.mem_filter.mp hmem).1
      rw [if_neg hDf, if_neg hD]
      by_cases hXin : Value.X ∈ inputs
      · have hlen : (inputs.filter (fun v => decide (v ≠ Value.X))).length ≠
            inputs.length := by
          intro hl
          have := List.filter_length_eq_length.mp hl Value.X hXin
          simp at this
        rw [if_neg hlen, if_neg (by intro hcond; exact hcond.1 hXin)]
      · have hlen : (inputs.filter (fun v => decide (v ≠ Value.X))).length =
            inputs.length := by
          refine List.filter_length_eq_length.mpr ?_
          intro a ha
          refine decide_eq_true ?_
          intro haX
          exact hXin (haX ▸ ha)
        rw [if_pos hlen, if_pos ⟨hXin, hne⟩]

theorem eval_and_dbar (inputs : List Value) (h0 : Value.ZERO ∉ inputs)
    (hdb : Value.D_BAR ∈ inputs) : eval_and inputs = Value.D_BAR := by
  rw [eval_and, if_neg h0]
  dsimp only
  have hmem := mem_nonX hdb (by simp)
  rw [if_neg (List.ne_nil_of_mem hmem), if_pos hmem]

theorem bool_xor_not (p q : Bool) : Bool.xor (!p) q = Bool.xor p (!q) := by
  cases p <;> cases q <;> rfl

theorem oddOnes_one (t : List Value) : oddOnes (Value.ONE :: t) = !oddOnes t := by
  simp only [oddOnes, List.countP_cons, decide_eq_true_eq, decide_True, if_true]
  rcases Nat.mod_two_eq_zero_or_one (t.countP fun x => decide (x = Value.ONE))
    with h | h <;> simp [Nat.add_mod, h]

theorem oddOnes_other (a : Value) (t : List Value) (ha : a ≠ Value.ONE) :
    oddOnes (a :: t) = oddOnes t := by
  simp [oddOnes, List.countP_cons, decide_eq_false ha]

theorem xorScan_none (l : List Value) (p d db : Bool) :
    xorScan l p d db = none ↔ Value.X ∈ l := by
  induction l generalizing p d db with
  | nil => simp [xorScan]
  | cons a t ih =>
    cases a with
    | ZERO => simp [xorScan, ih]
    | ONE => simp [xorScan, ih]
    | X => simp [xorScan]
    | D => simp [xorScan, ih]
    | D_BAR => simp [xorScan, ih]

theorem xorScan_some (l : List Value) (hX : Value.X ∉ l) (p d db : Bool) :
    xorScan l p d db =
      some (Bool.xor p (oddOnes l), d || decide (Value.D ∈ l),
        db || decide (Value.D_BAR ∈ l)) := by
  induction l generalizing p d db with
  | nil => simp [xorScan, oddOnes]
  | cons a t ih =>
    have hXt : Value.X ∉ t := fun h => hX (List.mem_cons_of_mem a h)
    cases a with
    | ZERO =>
      rw [show xorScan (Value.ZERO :: t) p d db = xorScan t p d db from rfl,
        ih hXt, oddOnes_other Value.ZERO t (by simp)]
      simp
    | ONE =>
      rw [show xorScan (Value.ONE :: t) p d db = xorScan t (!p) d db from rfl,
        ih hXt, oddOnes_one, bool_xor_not]
      simp
    | X => exact absurd (List.mem_cons_self _ t) hX
    | D =>
      rw [show xorScan (Value.D :: t) p d db = xorScan t p true db from rfl,
        ih hXt, oddOnes_other Value.D t (by simp)]
      simp
    | D_BAR =>
      rw [show xorScan (Value.D_BAR :: t) p d db = xorScan t p d true from rfl,
        ih hXt, oddOnes_other Value.D_BAR t (by simp)]
      simp

theorem eval_xor_of_X (inputs : List Value) (hX : Value.X ∈ inputs) :
    eval_xor inputs = Value.X := by
  rw [eval_xor]
  by_cases hnil : inputs.filter (fun v => decide (v ≠ Value.X)) = []
  · rw [if_pos ⟨hX, hnil⟩]
  · rw [if_neg (fun h => hnil h.2),
      (xorScan_none inputs false false false).mpr hX]

theorem eval_xor_scan (inputs : List Value) (hX : Value.X ∉ inputs) :
    eval_xor inputs =
      (if decide (Value.D ∈ inputs) ∧ ¬decide (Value.D_BAR ∈ inputs) then
        (if oddOnes inputs = false then Value.D else Value.D_BAR)
      else if decide (Value.D_BAR ∈ inputs) ∧ ¬decide (Value.D ∈ inputs) then
        (if oddOnes inputs = false then Value.D_BAR else Value.D)
      else if decide (Value.D ∈ inputs) ∧ decide (Value.D_BAR ∈ inputs) then
        Value.X
      else if oddOnes inputs = true then Value.ONE else Value.ZERO) := by
  rw [eval_xor, if_neg (fun h => hX h.1), xorScan_some inputs hX]
  rw [Bool.false_xor]
  simp only [Bool.false_or]

/-- C4 counterexample: at the empty input list the claim applies its third
branch (no ZERO, no D_BAR, all non-UNKNOWN inputs vacuously in the set of
ONE and D, no D present, every input vacuously known) and therefore
demands the result ONE, but the AND evaluator returns UNKNOWN because its
empty non-X filter check fires first. -/
theorem claimC4_counterexample :
    Value.ZERO ∉ ([] : List Value) ∧ Value.D_BAR ∉ ([] : List Value) ∧
    (∀ x ∈ ([] : List Value), x ≠ Value.X → x = Value.ONE ∨ x = Value.D) ∧
    Value.D ∉ ([] : List Value) ∧ (∀ x ∈ ([] : List Value), x ≠ Value.X) ∧
    eval_and [] = Value.X ∧ Value.X ≠ Value.ONE := by
  refine ⟨by simp, by simp, by simp, by simp, by simp, by decide, by simp⟩

/-- C4 (amended): for every list of five-valued inputs the AND evaluator
returns ZERO if any input is ZERO; otherwise D_BAR if any (necessarily
non-UNKNOWN) input is D_BAR; otherwise D if some input is D, ONE if the
list is nonempty and every input is known, and UNKNOWN in all remaining
cases - in particular the empty list yields UNKNOWN, not ONE. -/
theorem claimC4_amended (inputs : List Value) :
    (Value.ZERO ∈ inputs → eval_and inputs = Value.ZERO) ∧
    (Value.ZERO ∉ inputs → Value.D_BAR ∈ inputs →
      eval_and inputs = Value.D_BAR) ∧
    (Value.ZERO ∉ inputs → Value.D_BAR ∉ inputs →
      eval_and inputs =
        (if Value.D ∈ inputs then Value.D
          else if Value.X ∉ inputs ∧ inputs ≠ [] then Value.ONE
          else Value.X)) := by
  refine ⟨fun h => ?_, fun h0 hdb => eval_and_dbar inputs h0 hdb,
    fun h0 hdb => eval_and_char inputs h0 hdb⟩
  rw [eval_and, if_pos h]

/-- C4 witness: the amended branches fire on concrete inputs: AND of D
and X gives D, AND with a ZERO gives ZERO, AND of ONE and ONE gives
ONE. -/
theorem claimC4_witness :
    eval_and [Value.D, Value.X] = Value.D ∧
    eval_and [Value.ZERO, Value.D] = Value.ZERO ∧
    eval_and [Value.ONE, Value.ONE] = Value.ONE := by
  refine ⟨?_, (claimC4_amended [Value.ZERO, Value.D]).1 (by decide), ?_⟩
  · rw [(claimC4_amended [Value.D, Value.X]).2.2 (by decide) (by decide)]
    decide
  · rw [(claimC4_amended [Value.ONE, Value.ONE]).2.2 (by decide) (by decide)]
    decide

/-- C5: the XOR evaluator returns UNKNOWN if any input is UNKNOWN;
otherwise, with parity the exclusive-or of the ONE-valued inputs, it
returns D (even parity) or D_BAR (odd parity) when D is present without
D_BAR, the swapped rule when D_BAR is present without D, UNKNOWN when
both fault polarities are present, and the plain parity bit when only
ZERO and ONE inputs occur. -/
theorem claimC5 (inputs : List Value) :
    (Value.X ∈ inputs → eval_xor inputs = Value.X) ∧
    (Value.X ∉ inputs →
      ((Value.D ∈ inputs ∧ Value.D_BAR ∉ inputs) →
        eval_xor inputs =
          (if oddOnes inputs = false then Value.D else Value.D_BAR)) ∧
      ((Value.D_BAR ∈ inputs ∧ Value.D ∉ inputs) →
        eval_xor inputs =
          (if oddOnes inputs = false then Value.D_BAR else Value.D)) ∧
      ((Value.D ∈ inputs ∧ Value.D_BAR ∈ inputs) →
        eval_xor inputs = Value.X) ∧
      ((Value.D ∉ inputs ∧ Value.D_BAR ∉ inputs) →
        eval_xor inputs =
          (if oddOnes inputs = true then Value.ONE else Value.ZERO))) := by
  refine ⟨eval_xor_of_X inputs, fun hX => ⟨?_, ?_, ?_, ?_⟩⟩ <;>
    intro h <;> rw [eval_xor_scan inputs hX]
  · simp [h.1, h.2]
  · simp [h.1, h.2]
  · simp [h.1, h.2]
  · simp [h.1, h.2]

/-- C5 witness: concrete instances of every branch: an UNKNOWN input
forces UNKNOWN, XOR of D and ONE gives D_BAR (odd parity), XOR of D_BAR
and ZERO gives D_BAR (even parity), XOR of D and D_BAR gives UNKNOWN, and
XOR of ONE and ONE gives ZERO. -/
theorem claimC5_witness :
    eval_xor [Value.X, Value.ONE] = Value.X ∧
    eval_xor [Value.D, Value.ONE] = Value.D_BAR ∧
    eval_xor [Value.D_BAR, Value.ZERO] = Value.D_BAR ∧
    eval_xor [Value.D, Value.D_BAR] = Value.X ∧
    eval_xor [Value.ONE, Value.ONE] = Value.ZERO := by
  refine ⟨(claimC5 [Value.X, Value.ONE]).1 (by decide), ?_, ?_,
    ((claimC5 [Value.D, Value.D_BAR]).2 (by decide)).2.2.1
      ⟨by decide, by decide⟩, ?_⟩
  · rw [((claimC5 [Value.D, Value.ONE]).2 (by decide)).1 ⟨by decide, by decide⟩]
    decide
  · rw [((claimC5 [Value.D_BAR, Value.ZERO]).2 (by decide)).2.1
      ⟨by decide, by decide⟩]
    decide
  · rw [((claimC5 [Value.ONE, Value.ONE]).2 (by decide)).2.2.2
      ⟨by decide, by decide⟩]
    decide

/-- C8: the gate evaluator is total: it always yields one of the five
logic values, an arity other than one on NOT or BUF yields UNKNOWN, and
an unrecognized gate-type string yields UNKNOWN. -/
theorem claimC8 (gateType : String) (inputs : List Value) :
    (eval_gate gateType inputs = Value.ZERO ∨
      eval_gate gateType inputs = Value.ONE ∨
      eval_gate gateType inputs = Value.X ∨
      eval_gate gateType inputs = Value.D ∨
      eval_gate gateType inputs = Value.D_BAR) ∧
    ((gateType = "not" ∨ gateType = "buf") → inputs.length ≠ 1 →
      eval_gate gateType inputs = Value.X) ∧
    (gateType ≠ "and" → gateType ≠ "or" → gateType ≠ "xor" →
      gateType ≠ "nand" → gateType ≠ "nor" → gateType ≠ "xnor" →
      gateType ≠ "not" → gateType ≠ "buf" →
      eval_gate gateType inputs = Value.X) := by
  have hdef : eval_gate gateType inputs =
      (if gateType = "and" then eval_and inputs
        else if gateType = "or" then eval_or inputs
        else if gateType = "xor" then eval_xor inputs
        else if gateType = "nand" then complement (eval_and inputs)
        else if gateType = "nor" then complement (eval_or inputs)
        else if gateType = "xnor" then complement (eval_xor inputs)
        else if gateType = "not" then
          (match inputs with
            | [i] => complement i
            | _ => Value.X)
        else if gateType = "buf" then
          (match inputs with
            | [i] => i
            | _ => Value.X)
        else Value.X) := rfl
  refine ⟨?_, ?_, ?_⟩
  · cases h : eval_gate gateType inputs <;> simp
  · intro htype hlen
    rcases htype with h | h <;> subst h <;>
      rcases inputs with _ | ⟨i, _ | ⟨j, t⟩⟩
    · rfl
    · exact absurd rfl hlen
    · rfl
    · rfl
    · exact absurd rfl hlen
    · rfl
  · intro h1 h2 h3 h4 h5 h6 h7 h8
    rw [hdef, if_neg h1, if_neg h2, if_neg h3, if_neg h4, if_neg h5,
      if_neg h6, if_neg h7, if_neg h8]

/-- C8 witness: an unrecognized gate type and a NOT applied to zero
inputs both evaluate to UNKNOWN. -/
theorem claimC8_witness :
    eval_gate "majority" [Value.ONE] = Value.X ∧
    eval_gate "not" [] = Value.X := by
  refine ⟨(claimC8 "majority" [Value.ONE]).2.2 (by decide) (by decide)
      (by decide) (by decide) (by decide) (by decide) (by decide) (by decide),
    (claimC8 "not" []).2.1 (Or.inl rfl) (by decide)⟩

/-- C6: code behavior at the concrete scenario of the claim: on the
single AND gate circuit with primary output f, generate_test for the
stuck-at-0 fault on f succeeds but returns the all-zero vector, because
the engine declares success as soon as the sensitized D sits on the
output port and never justifies the sensitized value back to the inputs;
the claim (and the specification scenario) require the vector assigning
ONE to both a and b. -/
theorem claimC6_code_result :
    generate_test andCircuit "f" "SA0" = some [("a", "0"), ("b", "0")] := by
  decide

/-- C7: a fault net outside the net list, or a fault type other than SA0
and SA1, makes generate_test return no test immediately, before the
search starts, with the stored signal state untouched. -/
theorem claimC7 (c : Circuit) (v0 : Values) (faultNet faultType : String)
    (h : faultNet ∉ c.nets ∨ (faultType ≠ "SA0" ∧ faultType ≠ "SA1")) :
    generate_test_full c v0 faultNet faultType = (none, v0) := by
  rw [generate_test_full]
  rcases h with h | h
  · rw [if_pos h]
  · by_cases h1 : faultNet ∉ c.nets
    · rw [if_pos h1]
    · rw [if_neg h1, if_pos h]

/-- C7 witness: a missing net and an invalid fault kind on the concrete
AND circuit both return no test and leave the incoming all-X state
unchanged. -/
theorem claimC7_witness :
    generate_test_full andCircuit (fun _ => Value.X) "w9" "SA0" =
      (none, fun _ => Value.X) ∧
    generate_test_full andCircuit (fun _ => Value.X) "f" "SAX" =
      (none, fun _ => Value.X) :=
  ⟨claimC7 andCircuit (fun _ => Value.X) "w9" "SA0" (Or.inl (by decide)),
    claimC7 andCircuit (fun _ => Value.X) "f" "SAX"
      (Or.inr ⟨by decide, by decide⟩)⟩

/-- C9: calling generate_test twice with identical arguments on the same
engine instance gives identical results: the result component of the
second call, started from the stored state the first call leaves behind,
equals the result of the first call (the search path resets the state
and the validation path ignores it). -/
theorem claimC9 (c : Circuit) (v0 : Values) (faultNet faultType : String) :
    (generate_test_full c (generate_test_full c v0 faultNet faultType).2
        faultNet faultType).1 =
      (generate_test_full c v0 faultNet faultType).1 :=
  generate_test_full_fst_indep c faultNet faultType _ v0

/-- C1: during forward implication every gate output is recomputed from
the current inputs: a known recomputed value conflicting with a known,
different stored output fails the pass at that gate with the state
untouched from that point (and a failed forward implication makes the
generate_test iteration return no test); on every path only outputs
currently UNKNOWN are changed; every changed net received the value
recomputed by one of its driving gates at an intermediate state of the
pass; and when forward implication reports success with fuel exceeding
the number of unknown nets, the final state is a true fixed point: a
full pass changes no net. -/
theorem claimC1 (c : Circuit) :
    (∀ (g : Gate) (gs : List Gate) (v : Values) (ch : Bool),
      v g.output ≠ Value.X → eval_gate g.type (g.inputs.map v) ≠ Value.X →
      v g.output ≠ eval_gate g.type (g.inputs.map v) →
      forwardPass (g :: gs) v ch = (none, v)) ∧
    (∀ (fuel : Nat) (v : Values), (forward_implication c 100 v).1 = false →
      atpgLoop c (fuel + 1) v = (none, (forward_implication c 100 v).2)) ∧
    (∀ (fuel : Nat) (v : Values) (n : String),
      (forward_implication c fuel v).2 n ≠ v n → v n = Value.X) ∧
    (∀ (v : Values) (ch : Bool) (n : String),
      (forwardPass c.cells v ch).2 n ≠ v n →
      ∃ g ∈ c.cells, g.output = n ∧ ∃ w : Values, tightens v w ∧
        w n = Value.X ∧
        (forwardPass c.cells v ch).2 n = eval_gate g.type (g.inputs.map w)) ∧
    ((∀ g ∈ c.cells, g.output ∈ c.nets) →
      ∀ (fuel : Nat) (v : Values), (forward_implication c fuel v).1 = true →
      countX c.nets v < fuel →
      forwardPass c.cells (forward_implication c fuel v).2 false =
        (some false, (forward_implication c fuel v).2)) :=
  ⟨fun g gs v ch => forwardPass_conflict g gs v ch,
    atpgLoop_of_conflict c,
    fun fuel v n => forward_implication_onlyX c fuel v n,
    fun v ch n => forwardPass_change_eval c.cells v ch n,
    fun hwf fuel v hok hfuel =>
      forward_implication_fixpoint c fuel v hwf hok hfuel⟩

/-- C1 witness: on the single AND gate circuit, a stored ZERO on f
against ONE inputs is a conflict that fails the pass and the search
iteration; from the all-ONE-inputs state forward implication changes
only the previously UNKNOWN net f, the change is an AND-gate
recomputation, and the resulting state is a fixed point of a full
pass. -/
theorem claimC1_witness :
    forwardPass andCircuit.cells andConflict false = (none, andConflict) ∧
    atpgLoop andCircuit 1 andConflict =
      (none, (forward_implication andCircuit 100 andConflict).2) ∧
    andOnes "f" = Value.X ∧
    (∃ g ∈ andCircuit.cells, g.output = "f" ∧ ∃ w : Values,
      tightens andOnes w ∧ w "f" = Value.X ∧
      (forwardPass andCircuit.cells andOnes false).2 "f" =
        eval_gate g.type (g.inputs.map w)) ∧
    forwardPass andCircuit.cells
        (forward_implication andCircuit 100 andOnes).2 false =
      (some false, (forward_implication andCircuit 100 andOnes).2) :=
  ⟨(claimC1 andCircuit).1 ⟨"g1", "and", "f", ["a", "b"]⟩ [] andConflict false
      (by decide) (by decide) (by decide),
    (claimC1 andCircuit).2.1 0 andConflict (by decide),
    (claimC1 andCircuit).2.2.1 100 andOnes "f" (by decide),
    (claimC1 andCircuit).2.2.2.1 andOnes false "f" (by decide),
    (claimC1 andCircuit).2.2.2.2 (by decide) 100 andOnes (by decide)
      (by decide)⟩

/-- C2 counterexample: in the state of twoXorCircuit reached by
sensitizing a stuck-at-0 fault on s and running forward implication, the
D-frontier is gA followed by gB, the fault effect is not at a primary
output, and neither frontier gate has an X-path to an output, so the
claim demands failure with no gate selected; the engine nevertheless
selects gB (the second frontier gate, taken without any path check). -/
theorem claimC2_counterexample :
    d_frontier twoXorCircuit twoXorState = ["gA", "gB"] ∧
    check_d_at_output twoXorCircuit twoXorState = false ∧
    has_x_path_to_output twoXorCircuit twoXorState "gA" = false ∧
    has_x_path_to_output twoXorCircuit twoXorState "gB" = false ∧
    List.find? (fun g => has_x_path_to_output twoXorCircuit twoXorState g)
      ["gA", "gB"] = none ∧
    selectGate twoXorCircuit twoXorState "gA" ["gB"] = some "gB" := by
  decide

theorem selectGate_eq (c : Circuit) (v : Values) (g0 : String)
    (rest : List String) :
    selectGate c v g0 rest =
      (if has_x_path_to_output c v g0 then some g0
        else
          match rest with
          | [] => none
          | g1 :: _ => some g1) := rfl

theorem atpgLoop_step_some (c : Circuit) (fuel : Nat) (v : Values)
    (g0 g : String) (rest : List String)
    (h1 : (forward_implication c 100 v).1 = true)
    (h2 : check_d_at_output c (forward_implication c 100 v).2 = false)
    (h3 : d_frontier c (forward_implication c 100 v).2 = g0 :: rest)
    (hg : selectGate c (forward_implication c 100 v).2 g0 rest = some g) :
    atpgLoop c (fuel + 1) v =
      atpgLoop c fuel
        (propagate_d_through_gate c g (forward_implication c 100 v).2) := by
  rw [atpgLoop]
  rcases hp : forward_implication c 100 v with ⟨flag, v1⟩
  rw [hp] at h1 h2 h3 hg
  cases flag with
  | false => exact Bool.noConfusion h1
  | true =>
    dsimp only at h2 h3 hg ⊢
    rw [if_neg (by simp [h2]), h3]
    dsimp only
    rw [hg]

theorem atpgLoop_step_none (c : Circuit) (fuel : Nat) (v : Values)
    (g0 : String) (rest : List String)
    (h1 : (forward_implication c 100 v).1 = true)
    (h2 : check_d_at_output c (forward_implication c 100 v).2 = false)
    (h3 : d_frontier c (forward_implication c 100 v).2 = g0 :: rest)
    (hg : selectGate c (forward_implication c 100 v).2 g0 rest = none) :
    atpgLoop c (fuel + 1) v = (none, (forward_implication c 100 v).2) := by
  rw [atpgLoop]
  rcases hp : forward_implication c 100 v with ⟨flag, v1⟩
  rw [hp] at h1 h2 h3 hg
  cases flag with
  | false => exact Bool.noConfusion h1
  | true =>
    dsimp only at h2 h3 hg ⊢
    rw [if_neg (by simp [h2]), h3]
    dsimp only
    rw [hg]

/-- C2 (amended): whenever the D-frontier is non-empty and the fault
effect is not yet at a primary output, the engine selects the first
D-frontier gate when that gate has an X-path to some primary output;
otherwise it selects the second D-frontier gate when the frontier has at
least two gates, without checking that gate for a path; and it fails
with no test at this step exactly when the frontier has one gate and
that gate lacks an X-path. -/
theorem claimC2_amended (c : Circuit) (v : Values) (g0 : String)
    (rest : List String) (fuel : Nat)
    (h1 : (forward_implication c 100 v).1 = true)
    (h2 : check_d_at_output c (forward_implication c 100 v).2 = false)
    (h3 : d_frontier c (forward_implication c 100 v).2 = g0 :: rest) :
    (selectGate c (forward_implication c 100 v).2 g0 rest = none ↔
      (has_x_path_to_output c (forward_implication c 100 v).2 g0 = false ∧
        rest = [])) ∧
    (has_x_path_to_output c (forward_implication c 100 v).2 g0 = true →
      atpgLoop c (fuel + 1) v =
        atpgLoop c fuel
          (propagate_d_through_gate c g0 (forward_implication c 100 v).2)) ∧
    (has_x_path_to_output c (forward_implication c 100 v).2 g0 = false →
      rest = [] →
      atpgLoop c (fuel + 1) v = (none, (forward_implication c 100 v).2)) ∧
    (∀ (g1 : String) (t : List String),
      has_x_path_to_output c (forward_implication c 100 v).2 g0 = false →
      rest = g1 :: t →
      atpgLoop c (fuel + 1) v =
        atpgLoop c fuel
          (propagate_d_through_gate c g1
            (forward_implication c 100 v).2)) := by
  refine ⟨?_, ?_, ?_, ?_⟩
  · rw [selectGate_eq]
    cases hx : has_x_path_to_output c (forward_implication c 100 v).2 g0 with
    | true => simp
    | false =>
      cases rest with
      | nil => simp
      | cons g1 t => simp
  · intro hx
    refine atpgLoop_step_some c fuel v g0 g0 rest h1 h2 h3 ?_
    rw [selectGate_eq, if_pos hx]
  · intro hx hrest
    subst hrest
    refine atpgLoop_step_none c fuel v g0 [] h1 h2 h3 ?_
    rw [selectGate_eq, if_neg (by simp [hx])]
  · intro g1 t hx hrest
    subst hrest
    refine atpgLoop_step_some c fuel v g0 g1 (g1 :: t) h1 h2 h3 ?_
    rw [selectGate_eq, if_neg (by simp [hx])]

/-- C2 witness: the amended selection rule applied at the concrete
twoXorCircuit propagation state: the selection fails exactly when the
frontier tail is empty and the head gate lacks an X-path, which is not
the case here since the tail holds gB. -/
theorem claimC2_witness :
    selectGate twoXorCircuit
        (forward_implication twoXorCircuit 100
          (sensitize twoXorCircuit "s" Value.D (fun _ => Value.X))).2
        "gA" ["gB"] = none ↔
      (has_x_path_to_output twoXorCircuit
          (forward_implication twoXorCircuit 100
            (sensitize twoXorCircuit "s" Value.D (fun _ => Value.X))).2
          "gA" = false ∧
        (["gB"] : List String) = []) :=
  (claimC2_amended twoXorCircuit
    (sensitize twoXorCircuit "s" Value.D (fun _ => Value.X)) "gA" ["gB"] 0
    (by decide) (by decide) (by decide)).1

/-- C3: whenever generate_test succeeds, the returned vector covers
exactly the Input-direction ports in order, every entry is the string 0
or the string 1, the final state arises by first setting every still
UNKNOWN primary input to ZERO, an input that was UNKNOWN before
justification ends at ZERO, and each entry maps an input valued D or ONE
to 1 and an input valued D_BAR or ZERO to 0. -/
theorem claimC3 (c : Circuit) (v0 : Values) (faultNet faultType : String)
    (tv : List (String × String))
    (h : (generate_test_full c v0 faultNet faultType).1 = some tv) :
    tv.map Prod.fst =
      (c.ports.filter fun p => decide (p.2 = "Input")).map Prod.fst ∧
    (∀ p ∈ tv, p.2 = "0" ∨ p.2 = "1") ∧
    (∃ vpre : Values,
      (generate_test_full c v0 faultNet faultType).2 =
        justifyInputs c.ports vpre ∧
      tv = extractVector c.ports
        (generate_test_full c v0 faultNet faultType).2 ∧
      ∀ p ∈ c.ports, p.2 = "Input" → vpre p.1 = Value.X →
        (generate_test_full c v0 faultNet faultType).2 p.1 = Value.ZERO) ∧
    (∀ n s, (n, s) ∈ tv →
      (((generate_test_full c v0 faultNet faultType).2 n = Value.D ∨
        (generate_test_full c v0 faultNet faultType).2 n = Value.ONE) →
        s = "1") ∧
      (((generate_test_full c v0 faultNet faultType).2 n = Value.D_BAR ∨
        (generate_test_full c v0 faultNet faultType).2 n = Value.ZERO) →
        s = "0")) := by
  by_cases h1 : faultNet ∉ c.nets
  · rw [generate_test_full, if_pos h1] at h
    cases h
  · by_cases h2 : faultType ≠ "SA0" ∧ faultType ≠ "SA1"
    · rw [generate_test_full, if_neg h1, if_pos h2] at h
      cases h
    · have hgtf : generate_test_full c v0 faultNet faultType =
          atpgLoop c 200
            (sensitize c faultNet
              (if faultType = "SA0" then Value.D else Value.D_BAR)
              (fun _ => Value.X)) := by
        rw [generate_test_full, if_neg h1, if_neg h2]
      rw [hgtf] at h ⊢
      rcases hl : atpgLoop c 200
          (sensitize c faultNet
            (if faultType = "SA0" then Value.D else Value.D_BAR)
            (fun _ => Value.X)) with ⟨res, w⟩
      rw [hl] at h
      dsimp only at h ⊢
      subst h
      obtain ⟨vpre, hw, htv⟩ := atpgLoop_success c 200 _ tv w hl
      refine ⟨?_, ?_, ⟨vpre, hw, htv, ?_⟩, ?_⟩
      · rw [htv]
        exact extractVector_fst c.ports w
      · intro p hp
        rw [htv] at hp
        obtain ⟨q, _, hq⟩ := List.mem_map.mp hp
        rw [← hq]
        exact toBit_binary _
      · intro p hp hdir hX
        have hmem : (p.1, "Input") ∈ c.ports := by
          rw [show ((p.1, "Input") : String × String) = p by
            rw [← hdir]]
          exact hp
        rw [hw]
        exact justifyInputs_zero c.ports vpre p.1 hmem (Or.inl hX)
      · intro n s hmem
        have hs : s = toBit (w n) :=
          extractVector_mem c.ports w n s (htv ▸ hmem)
        constructor
        · rintro (hv | hv) <;> rw [hs, hv] <;> rfl
        · rintro (hv | hv) <;> rw [hs, hv] <;> rfl

/-- C3 witness: the successful run on the single AND gate circuit
satisfies the success-branch properties at the concrete vector the code
returns. -/
theorem claimC3_witness :
    (generate_test_full andCircuit (fun _ => Value.X) "f" "SA0").1 =
      some [("a", "0"), ("b", "0")] ∧
    ([("a", "0"), ("b", "0")] : List (String × String)).map Prod.fst =
      (andCircuit.ports.filter fun p => decide (p.2 = "Input")).map
        Prod.fst ∧
    (∀ p ∈ ([("a", "0"), ("b", "0")] : List (String × String)),
      p.2 = "0" ∨ p.2 = "1") :=
  ⟨by decide,
    (claimC3 andCircuit (fun _ => Value.X) "f" "SA0"
      [("a", "0"), ("b", "0")] (by decide)).1,
    (claimC3 andCircuit (fun _ => Value.X) "f" "SA0"
      [("a", "0"), ("b", "0")] (by decide)).2.1⟩

/-- C10: within a generate_test run every mutation step writes only to
nets whose current value is UNKNOWN, so once a net is known its value
never changes: this holds for each forward-implication pass, for full
forward implication, for driving non-controlling values during
D-propagation, for backward implication, for the final input
justification, for fault sensitization with fanout mirroring applied to
the freshly initialized all-X state, and for the whole search loop. -/
theorem claimC10 (c : Circuit) :
    (∀ (v : Values) (ch : Bool), onlyX v (forwardPass c.cells v ch).2) ∧
    (∀ (fuel : Nat) (v : Values),
      onlyX v (forward_implication c fuel v).2) ∧
    (∀ (gateName : String) (v : Values),
      onlyX v (propagate_d_through_gate c gateName v)) ∧
    (∀ (net : String) (required : Value) (v : Values),
      onlyX v (backward_implication c net required v).2) ∧
    (∀ v : Values, onlyX v (justifyInputs c.ports v)) ∧
    (∀ (faultNet : String) (sv : Value),
      onlyX (fun _ => Value.X) (sensitize c faultNet sv (fun _ => Value.X))) ∧
    (∀ (fuel : Nat) (v : Values), onlyX v (atpgLoop c fuel v).2) :=
  ⟨fun v ch => forwardPass_onlyX c.cells v ch,
    fun fuel v => forward_implication_onlyX c fuel v,
    fun gateName v => propagate_onlyX c gateName v,
    fun net required v => backward_implication_onlyX c net required v,
    fun v => justifyInputs_onlyX c.ports v,
    fun _ _ _ _ => rfl,
    fun fuel v => atpgLoop_onlyX c fuel v⟩

/-- C10 witness: on twoXorCircuit the search loop changes the net u (the
XOR propagation step drives it to ZERO), and indeed u was UNKNOWN in the
sensitized state the loop started from. -/
theorem claimC10_witness :
    (atpgLoop twoXorCircuit 200
        (sensitize twoXorCircuit "s" Value.D (fun _ => Value.X))).2 "u" ≠
      sensitize twoXorCircuit "s" Value.D (fun _ => Value.X) "u" ∧
    sensitize twoXorCircuit "s" Value.D (fun _ => Value.X) "u" = Value.X :=
  ⟨by decide,
    (claimC10 twoXorCircuit).2.2.2.2.2.2 200
      (sensitize twoXorCircuit "s" Value.D (fun _ => Value.X)) "u"
      (by decide)⟩

end DAlg
